import Mathlib

/-!
Shallow embedding of `tools/aapt2/optimize/Obfuscator.cpp` (the resource-identifier
obfuscation transform) and proofs about it.

Modelling conventions:
* C++ machine integers are modelled as `Nat`; the only arithmetic the source performs
  on them (`& 0x3f`, `>>= 6`, `% ...`, comparisons against small constants) is
  overflow-free for the values that occur, so no explicit `% 2^w` is required.
* `std::hash<android::StringPiece>` is the ambient, implementation-provided string
  hash; it is a fixed function within one program execution but is not pinned by the
  source.  It is modelled as an explicit parameter `stdHash : String → Nat`.
* `std::set<FileReference*, PathComparator>` is modelled as a comparator-driven binary
  search tree over the referenced path strings.  With a strict-weak-order comparator
  this coincides with `std::set` semantics; the search-tree insertion itself never
  consults anything but the comparator.
* `std::map` / `std::unordered_map` / `std::unordered_set` uses are modelled by the
  list of insertions in program order (keys inserted by the source are pairwise
  distinct, because the file-reference set deduplicates by path content), with
  membership tests on that list.
* Mutation of `file_ref->path` (re-interning the new string) is modelled by recording
  the list of replacement paths in processing order.
-/

namespace aapt

/-- The fixed 64-character alphabet from the source file (`base64_chars`),
A-Z then a-z then 0-9 then dash and underscore. -/
def base64_chars : List Char :=
  "ABCDEFGHIJKLMNOPQRSTUVWXYZabcdefghijklmnopqrstuvwxyz0123456789-_".data

/-- Decimal digit characters, used to model `std::to_string`. -/
def decimal_digits : List Char := "0123456789".data

/-- Modelled from the spec: `std::to_string` applied to a non-negative `int`
(the collision counter) produces its decimal representation, most significant
digit first.  `Nat.digits 10` yields the digits least significant first, hence
the `reverse`. -/
def to_string (n : Nat) : String :=
  if n = 0 then "0"
  else String.mk ((Nat.digits 10 n).reverse.map fun d => decimal_digits.getD d ' ')

/-- Loop body of `ShortenFileName`: for `output_length` iterations, take the low
6 bits of the hash (`hash_num & 0x3f`, i.e. `% 64`), shift the hash right by 6,
and append the corresponding alphabet character to the accumulated result. -/
def ShortenFileNameLoop (hash_num : Nat) (i : Nat) (result : List Char) : List Char :=
  match i with
  | 0 => result
  | Nat.succ n =>
      ShortenFileNameLoop (hash_num >>> 6) n (result ++ [base64_chars.getD (hash_num % 64) 'A'])

/-- Source function `ShortenFileName`: hash the full path with the ambient
`std::hash`, then emit `output_length` characters, least-significant 6-bit
group first, through `base64_chars`. -/
def ShortenFileName (stdHash : String → Nat) (file_path : String) (output_length : Nat) :
    String :=
  String.mk (ShortenFileNameLoop (stdHash file_path) output_length [])

/-- Source function `OptimalShortenedLength`: 3 when more than 4000 resources,
else 2. -/
def OptimalShortenedLength (num_resources : Nat) : Nat :=
  if num_resources > 4000 then 3 else 2

/-- Source function `GetShortenedPath`: the fixed prefix "res/", the shortened
filename, a decimal collision counter when it is positive, then the extension. -/
def GetShortenedPath (shortened_filename extension : String) (collision_count : Nat) :
    String :=
  let shortened_path := "res/" ++ shortened_filename
  let shortened_path :=
    if collision_count > 0 then shortened_path ++ to_string collision_count
    else shortened_path
  shortened_path ++ extension

/-- Three-way lexicographic comparison of character lists, the value of
`std::string::compare` (only its sign/zeroness is ever used by the source). -/
def compareChars : List Char → List Char → Int
  | [], [] => 0
  | [], _ :: _ => -1
  | _ :: _, [] => 1
  | a :: as, b :: bs =>
      if a < b then -1 else if b < a then 1 else compareChars as bs

/-- Model of `std::string::compare` on the two path strings. -/
def stringCompare (a b : String) : Int := compareChars a.data b.data

/-- Source struct `PathComparator`: its `operator()` returns
`lhs->path->compare(*rhs->path)`, an `int` implicitly converted to `bool`,
hence `true` exactly when the compared paths differ. -/
def PathComparator (lhs rhs : String) : Bool := stringCompare lhs rhs != 0

/-- Binary search tree over path strings, modelling the node structure of
`std::set<FileReference*, PathComparator>` (each `FileReference` represented by
its path string, the only data the comparator consults). -/
inductive SetTree where
  | leaf : SetTree
  | node : SetTree → String → SetTree → SetTree

/-- Search-tree insertion driven by the comparator, as `std::set::insert`:
descend left when `comp x v`, right when `comp v x`, and drop the element as a
duplicate when neither holds. -/
def SetTree.insert (comp : String → String → Bool) : SetTree → String → SetTree
  | SetTree.leaf, x => SetTree.node SetTree.leaf x SetTree.leaf
  | SetTree.node l v r, x =>
      if comp x v then SetTree.node (SetTree.insert comp l x) v r
      else if comp v x then SetTree.node l v (SetTree.insert comp r x)
      else SetTree.node l v r

/-- In-order traversal: the iteration order of the modelled `std::set`. -/
def SetTree.inorder : SetTree → List String
  | SetTree.leaf => []
  | SetTree.node l v r => SetTree.inorder l ++ v :: SetTree.inorder r

/-- The collection loop of `HandleShortenFilePaths`: insert every file-reference
path (in table traversal order) into the `PathComparator` set, then iterate it. -/
def collectFileRefs (paths : List String) : List String :=
  (paths.foldl (fun t p => SetTree.insert PathComparator t p) SetTree.leaf).inorder

/-- Result of splitting a resource file path, mirroring the three out-parameters
of `util::ExtractResFilePathParts`. -/
structure ResFilePathParts where
  res_subdir : String
  actual_filename : String
  extension : String
deriving DecidableEq

/-- Split a character list at its last '/' character: the first component keeps
the slash, the second is what follows it. -/
def splitAtLastSlash : List Char → List Char × List Char
  | [] => ([], [])
  | c :: cs =>
      if '/' ∈ cs then
        let p := splitAtLastSlash cs
        (c :: p.1, p.2)
      else if c = '/' then ([c], cs)
      else ([], c :: cs)

/-- Split a character list at its first '.' character: the second component
starts with the dot (or is empty when there is none). -/
def splitAtFirstDot : List Char → List Char × List Char
  | [] => ([], [])
  | c :: cs =>
      if c = '.' then ([], c :: cs)
      else
        let p := splitAtFirstDot cs
        (c :: p.1, p.2)

/-- Modelled from the spec: `util::ExtractResFilePathParts` (defined in
`util/Util.cpp`, which is not among the provided sources) splits a resource
file path into the resource subdirectory (everything up to and including the
last path separator), the base filename, and the extension (the part of the
base filename from its first dot on, empty when the base filename has no dot). -/
def ExtractResFilePathParts (path : String) : ResFilePathParts :=
  let dirRest := splitAtLastSlash path.data
  let baseExt := splitAtFirstDot dirRest.2
  ⟨String.mk dirRest.1, String.mk baseExt.1, String.mk baseExt.2⟩

/-- Modelled from the spec: `util::StartsWith` (defined in `util/Util.cpp`,
not among the provided sources) tests whether its first argument begins with
its second argument. -/
def StartsWith (s p : String) : Bool := s.data.take p.data.length == p.data

/-- Output state of the path-shortening pass: the `shortened_paths` collision
set and the `shortened_path_map`, each as its list of insertions in program
order. -/
structure ShortenState where
  shortened_paths : List String
  shortened_path_map : List (String × String)
deriving DecidableEq

/-- The collision `while` loop of `HandleShortenFilePaths`: starting from
counter `c`, return the first candidate `GetShortenedPath` result that is not
already in `shortened_paths`.  The loop is given explicit fuel; fuel
`shortened_paths.length + 1` always suffices (a free candidate is found before
it runs out, see `findShortened_eq`), so the fuel-exhausted branch is
unreachable in the program. -/
def findShortened (shortened_paths : List String) (shortened_filename extension : String) :
    Nat → Nat → String
  | c, 0 => GetShortenedPath shortened_filename extension c
  | c, Nat.succ fuel =>
      let candidate := GetShortenedPath shortened_filename extension c
      if candidate ∈ shortened_paths then
        findShortened shortened_paths shortened_filename extension (c + 1) fuel
      else candidate

/-- Loop body of `HandleShortenFilePaths` for one file reference: split the
path, skip `res/color*` subdirectories, otherwise shorten the filename, resolve
collisions starting from counter 0, and record the result in the collision set
and the `shortened_path_map`. -/
def processRef (stdHash : String → Nat) (num_chars : Nat) (st : ShortenState)
    (path : String) : ShortenState :=
  let parts := ExtractResFilePathParts path
  if StartsWith parts.res_subdir "res/color" then st
  else
    let shortened_filename := ShortenFileName stdHash path num_chars
    let shortened_path :=
      findShortened st.shortened_paths shortened_filename parts.extension 0
        (st.shortened_paths.length + 1)
    ⟨st.shortened_paths ++ [shortened_path],
     st.shortened_path_map ++ [(path, shortened_path)]⟩

/-- The per-reference loop of `HandleShortenFilePaths`, run with a given alias
length over the already-collected, already-ordered file references. -/
def HandleShortenFilePathsWith (stdHash : String → Nat) (num_chars : Nat)
    (file_refs : List String) : ShortenState :=
  file_refs.foldl (processRef stdHash num_chars) ⟨[], []⟩

/-- Source function `HandleShortenFilePaths`: collect the distinct file
references through the `PathComparator` set, derive the alias length from their
count, then process each in iteration order.  `paths` is the list of
file-reference paths in table traversal order. -/
def HandleShortenFilePaths (stdHash : String → Nat) (paths : List String) : ShortenState :=
  let file_refs := collectFileRefs paths
  HandleShortenFilePathsWith stdHash (OptimalShortenedLength file_refs.length) file_refs

/-- Source enum `Obfuscator::Result`. -/
inductive Result where
  | Keep_ExemptionList
  | Keep_Overlayable
  | Obfuscated
deriving DecidableEq

/-- A `ResourceName` triple.  The type component is the full resource type name
(modelling `ResourceNamedType` by its name). -/
structure ResourceName where
  package : String
  type : String
  entry : String
deriving DecidableEq

/-- Source struct `ResourceTableEntryView`, restricted to the fields this
transform reads (`name`, the 16-bit entry id, and the overlayable marker; the
`visibility`, `allow_new` and `staged_id` fields are carried by the source but
never consulted by the obfuscation logic). -/
structure ResourceTableEntryView where
  name : String
  id : Option Nat
  overlayable_item : Option Unit
deriving DecidableEq

/-- Source function `Obfuscator::ObfuscateResourceName`: build the resource
name with an empty package; when collapsing is disabled or the name is in the
exemption set the outcome is `Keep_ExemptionList`; otherwise an overlayable
entry yields `Keep_Overlayable` and anything else `Obfuscated`.  The single
callback invocation is modelled by returning the outcome together with the
resource name passed to the callback. -/
def ObfuscateResourceName (collapse_key_stringpool : Bool)
    (name_collapse_exemptions : List ResourceName) (type_name : String)
    (entry : ResourceTableEntryView) : Result × ResourceName :=
  let resource_name : ResourceName := ⟨"", type_name, entry.name⟩
  if collapse_key_stringpool = false ∨ resource_name ∈ name_collapse_exemptions then
    (Result.Keep_ExemptionList, resource_name)
  else if entry.overlayable_item.isSome then
    (Result.Keep_Overlayable, resource_name)
  else
    (Result.Obfuscated, resource_name)

/-- A resolved resource id; `id` is the full 32-bit value. -/
structure ResourceId where
  id : Nat
deriving DecidableEq

/-- Source accessor `ResourceId::entry_id()`: the low 16 bits. -/
def ResourceId.entry_id (r : ResourceId) : Nat := r.id % 65536

/-- A resource value; the transform only distinguishes file references
(`ValueCast<FileReference>` succeeds) from everything else. -/
inductive Value where
  | file_reference (path : String)
  | other
deriving DecidableEq

/-- Model of `ValueCast<FileReference>` applied to a config value's value:
the referenced path when the value is a file reference. -/
def ValueCastFileReference : Value → Option String
  | Value.file_reference path => some path
  | Value.other => none

/-- A per-configuration value of an entry (`ResourceConfigValue`); only its
`value` is consulted. -/
structure ResourceConfigValue where
  value : Value
deriving DecidableEq

/-- A resource table entry with the fields this transform reads. -/
structure ResourceEntry where
  name : String
  id : Option ResourceId
  overlayable_item : Option Unit
  values : List ResourceConfigValue
deriving DecidableEq

/-- A resource type: its name and its entries. -/
structure ResourceTableType where
  named_type : String
  entries : List ResourceEntry
deriving DecidableEq

/-- A resource table package. -/
structure ResourceTablePackage where
  types : List ResourceTableType
deriving DecidableEq

/-- The resource table: a forest of packages, types and entries. -/
structure ResourceTable where
  packages : List ResourceTablePackage
deriving DecidableEq

/-- The entry view built by `HandleCollapseKeyStringPool` for one entry. -/
def entryViewOf (entry : ResourceEntry) : ResourceTableEntryView :=
  ⟨entry.name, entry.id.map ResourceId.entry_id, entry.overlayable_item⟩

/-- Per-entry behaviour of the `HandleCollapseKeyStringPool` loop body: skip
entries without a resolved id or with an empty name; otherwise classify the
entry and, exactly when the outcome is `Obfuscated`, emit the pair of the full
resolved 32-bit id and the entry name (inserted into `id_resource_map` by the
`onObfuscate` callback). -/
def entryEmission (collapse_key_string_pool : Bool)
    (name_collapse_exemptions : List ResourceName) (type_name : String)
    (entry : ResourceEntry) : Option (Nat × String) :=
  if entry.id.isNone ∨ entry.name = "" then none
  else
    match ObfuscateResourceName collapse_key_string_pool name_collapse_exemptions type_name
        (entryViewOf entry) with
    | (Result.Obfuscated, resource_name) => some ((entry.id.getD ⟨0⟩).id, resource_name.entry)
    | _ => none

/-- Source function `HandleCollapseKeyStringPool`: return immediately when
collapsing is disabled, otherwise walk every package, type and entry and
collect the `id_resource_map` insertions in traversal order. -/
def HandleCollapseKeyStringPool (table : ResourceTable) (collapse_key_string_pool : Bool)
    (name_collapse_exemptions : List ResourceName) : List (Nat × String) :=
  if collapse_key_string_pool = false then []
  else
    table.packages.flatMap fun package =>
      package.types.flatMap fun ty =>
        ty.entries.filterMap
          (entryEmission collapse_key_string_pool name_collapse_exemptions ty.named_type)

/-- The file-reference paths of a table in traversal order (packages, types,
entries, config values), as collected by the nested loops of
`HandleShortenFilePaths`. -/
def tableFileRefPaths (table : ResourceTable) : List String :=
  table.packages.flatMap fun package =>
    package.types.flatMap fun ty =>
      ty.entries.flatMap fun entry =>
        entry.values.filterMap fun config_value => ValueCastFileReference config_value.value

/-- The table-flattener options consumed by the transform. -/
structure TableFlattenerOptions where
  collapse_key_stringpool : Bool
  name_collapse_exemptions : List ResourceName

/-- The optimize options consumed by the `Obfuscator` constructor. -/
structure OptimizeOptions where
  table_flattener_options : TableFlattenerOptions
  shorten_resource_paths : Bool

/-- Everything `Obfuscator::Consume` produces: the two output mappings (as
their insertion lists), the replacement paths written into the deduplicated
file references in processing order, and the returned boolean. -/
structure ConsumeResult where
  id_resource_map : List (Nat × String)
  shortened_path_map : List (String × String)
  rewritten_paths : List String
  returned : Bool
deriving DecidableEq

/-- Source function `Obfuscator::Consume`: always run the name-collapse
handler, then run path shortening iff `shorten_resource_paths` is set; the
result is always `true`. -/
def Consume (stdHash : String → Nat) (options : OptimizeOptions) (table : ResourceTable) :
    ConsumeResult :=
  let id_resource_map :=
    HandleCollapseKeyStringPool table options.table_flattener_options.collapse_key_stringpool
      options.table_flattener_options.name_collapse_exemptions
  if options.shorten_resource_paths then
    let st := HandleShortenFilePaths stdHash (tableFileRefPaths table)
    ⟨id_resource_map, st.shortened_path_map, st.shortened_path_map.map Prod.snd, true⟩
  else
    ⟨id_resource_map, [], [], true⟩

/-- Source function `Obfuscator::IsEnabled`: either option enables the
de-obfuscation artifact. -/
def IsEnabled (options : OptimizeOptions) : Bool :=
  options.shorten_resource_paths || options.table_flattener_options.collapse_key_stringpool

/-- A reference is skipped by the path-shortening loop exactly when its
resource subdirectory starts with "res/color". -/
def skipped (p : String) : Bool :=
  StartsWith (ExtractResFilePathParts p).res_subdir "res/color"

/-- The alias of a path in a run with alias length `num_chars`. -/
def famAlias (stdHash : String → Nat) (num_chars : Nat) (p : String) : String :=
  ShortenFileName stdHash p num_chars

/-- The extension of a path as used by the shortening loop. -/
def famExt (p : String) : String := (ExtractResFilePathParts p).extension

/-- Whether a processed (non-skipped) reference shares alias `f` and extension
`e`. -/
def famPred (stdHash : String → Nat) (num_chars : Nat) (f e : String) (q : String) : Bool :=
  !skipped q && (famAlias stdHash num_chars q == f) && (famExt q == e)

/-- How many references in `pre` were processed (not skipped) with alias `f`
and extension `e`. -/
def famCount (stdHash : String → Nat) (num_chars : Nat) (pre : List String) (f e : String) :
    Nat :=
  pre.countP (famPred stdHash num_chars f e)

/-- Candidate shortened path, written following the spec's words: the fixed
resource-root prefix, the alias, an optional decimal collision suffix (omitted
when the suffix counter is 0), then the original extension. -/
def specCandidate (aliasStr extension : String) (k : Nat) : String :=
  "res/" ++ aliasStr ++ (if k = 0 then "" else to_string k) ++ extension

/-- Closed form of the shortening loop, following the spec's words: processing
references left to right (with `pre` the references already processed), a
skipped reference contributes nothing, and a processed reference is mapped to
the candidate built from its alias, its extension, and a collision counter
equal to the number of previously processed references sharing that alias and
extension (so the first gets the bare alias and later ones the suffixes
1, 2, 3, ... in processing order). -/
def specAssignFrom (stdHash : String → Nat) (num_chars : Nat) :
    List String → List String → List (String × String)
  | _, [] => []
  | pre, p :: rest =>
      if skipped p then specAssignFrom stdHash num_chars (pre ++ [p]) rest
      else
        (p, specCandidate (famAlias stdHash num_chars p) (famExt p)
              (famCount stdHash num_chars pre (famAlias stdHash num_chars p) (famExt p)))
          :: specAssignFrom stdHash num_chars (pre ++ [p]) rest

/-- The collision-set contents after processing `pre`: the assigned shortened
paths in order. -/
def takenOf (stdHash : String → Nat) (num_chars : Nat) (pre : List String) : List String :=
  (specAssignFrom stdHash num_chars [] pre).map Prod.snd

/-- Shape of every extension produced by the path splitter: empty, or starting
with a dot. -/
def extOk (extension : String) : Prop :=
  extension.data = [] ∨ ∃ rest, extension.data = '.' :: rest

@[simp]
lemma data_mk (l : List Char) : (String.mk l).data = l := rfl

lemma shortenFileNameLoop_length :
    ∀ (i hash_num : Nat) (result : List Char),
      (ShortenFileNameLoop hash_num i result).length = result.length + i := by
  intro i
  induction i with
  | zero => intro h acc; simp [ShortenFileNameLoop]
  | succ n ih =>
      intro h acc
      rw [ShortenFileNameLoop, ih]
      simp
      omega

lemma shortenFileName_data_length (stdHash : String → Nat) (p : String) (n : Nat) :
    (ShortenFileName stdHash p n).data.length = n := by
  unfold ShortenFileName
  rw [data_mk, shortenFileNameLoop_length]
  simp

lemma famAlias_data_length (stdHash : String → Nat) (num_chars : Nat) (p : String) :
    (famAlias stdHash num_chars p).data.length = num_chars :=
  shortenFileName_data_length stdHash p num_chars

lemma decimal_digits_ne_dot : ∀ ch ∈ decimal_digits, ch ≠ '.' := by decide

lemma digit_getD_mem {d : Nat} (hd : d < 10) : decimal_digits.getD d ' ' ∈ decimal_digits := by
  interval_cases d <;> decide

lemma digit_getD_inj {d₁ d₂ : Nat} (h₁ : d₁ < 10) (h₂ : d₂ < 10)
    (h : decimal_digits.getD d₁ ' ' = decimal_digits.getD d₂ ' ') : d₁ = d₂ := by
  interval_cases d₁ <;> interval_cases d₂ <;> simp_all <;> revert h <;> decide

lemma to_string_mem (n : Nat) : ∀ ch ∈ (to_string n).data, ch ∈ decimal_digits := by
  intro ch hch
  unfold to_string at hch
  by_cases hn : n = 0
  · simp [hn] at hch
    subst hch
    decide
  · simp only [hn, if_false, data_mk, List.mem_map] at hch
    obtain ⟨d, hd, rfl⟩ := hch
    exact digit_getD_mem (Nat.digits_lt_base (by norm_num) (List.mem_reverse.mp hd))

lemma to_string_data_ne_nil (n : Nat) : (to_string n).data ≠ [] := by
  unfold to_string
  by_cases hn : n = 0
  · simp [hn]
  · simp only [hn, if_false, data_mk, ne_eq, List.map_eq_nil_iff, List.reverse_eq_nil_iff]
    exact Nat.digits_ne_nil_iff_ne_zero.mpr hn

lemma map_digit_inj :
    ∀ (l₁ l₂ : List Nat), (∀ d ∈ l₁, d < 10) → (∀ d ∈ l₂, d < 10) →
      l₁.map (fun d => decimal_digits.getD d ' ') = l₂.map (fun d => decimal_digits.getD d ' ') →
      l₁ = l₂ := by
  intro l₁
  induction l₁ with
  | nil =>
      intro l₂ _ _ h
      cases l₂ with
      | nil => rfl
      | cons b t => simp at h
  | cons a t ih =>
      intro l₂ h₁ h₂ h
      cases l₂ with
      | nil => simp at h
      | cons b t' =>
          simp only [List.map_cons, List.cons.injEq] at h
          have hab : a = b :=
            digit_getD_inj (h₁ a (by simp)) (h₂ b (by simp)) h.1
          have ht : t = t' :=
            ih t' (fun d hd => h₁ d (by simp [hd])) (fun d hd => h₂ d (by simp [hd])) h.2
          rw [hab, ht]

lemma to_string_inj {a b : Nat} (ha : a ≠ 0) (hb : b ≠ 0) (h : to_string a = to_string b) :
    a = b := by
  unfold to_string at h
  simp only [ha, hb, if_false] at h
  have hd := congrArg String.data h
  simp only [data_mk] at hd
  have hrev :=
    map_digit_inj (Nat.digits 10 a).reverse (Nat.digits 10 b).reverse
      (fun d hd => Nat.digits_lt_base (by norm_num) (List.mem_reverse.mp hd))
      (fun d hd => Nat.digits_lt_base (by norm_num) (List.mem_reverse.mp hd)) hd
  have hdig : Nat.digits 10 a = Nat.digits 10 b := List.reverse_injective hrev
  calc a = Nat.ofDigits 10 (Nat.digits 10 a) := (Nat.ofDigits_digits 10 a).symm
    _ = Nat.ofDigits 10 (Nat.digits 10 b) := by rw [hdig]
    _ = b := Nat.ofDigits_digits 10 b

lemma getShortenedPath_data (f e : String) (c : Nat) :
    (GetShortenedPath f e c).data =
      "res/".data ++ f.data ++ (if c = 0 then [] else (to_string c).data) ++ e.data := by
  unfold GetShortenedPath
  by_cases hc : c = 0
  · simp [hc, String.data_append]
  · have h0 : c > 0 := Nat.pos_of_ne_zero hc
    simp [hc, h0, String.data_append, List.append_assoc]

lemma specCandidate_eq (aliasStr extension : String) (k : Nat) :
    specCandidate aliasStr extension k = GetShortenedPath aliasStr extension k := by
  apply String.ext
  rw [getShortenedPath_data]
  unfold specCandidate
  by_cases hk : k = 0
  · simp [hk, String.data_append]
  · simp [hk, String.data_append, List.append_assoc]

lemma append_eq_append_of_le {α : Type} {x y e e' : List α}
    (h : x ++ e = y ++ e') (hle : x.length ≤ y.length) :
    ∃ m, y = x ++ m ∧ e = m ++ e' := by
  refine ⟨e.take (y.length - x.length), ?_, ?_⟩
  · have := congrArg (List.take y.length) h
    rw [List.take_append_eq_append_take, List.take_append_eq_append_take] at this
    simpa [List.take_of_length_le hle, Nat.sub_eq_zero_of_le (le_refl y.length)] using this.symm
  · have := congrArg (List.drop y.length) h
    rw [List.drop_append_eq_append_drop, List.drop_append_eq_append_drop] at this
    have hx : x.drop y.length = [] := List.drop_eq_nil_of_le hle
    have hy : y.drop y.length = [] := List.drop_eq_nil_of_le (le_refl _)
    simp only [hx, hy, List.nil_append] at this
    conv_lhs => rw [← List.take_append_drop (y.length - x.length) e]
    rw [this]
    simp

/-- The optional decimal collision suffix as a character list. -/
def sfxData (c : Nat) : List Char := if c = 0 then [] else (to_string c).data

lemma sfxData_digits {c : Nat} : ∀ ch ∈ sfxData c, ch ∈ decimal_digits := by
  intro ch hch
  unfold sfxData at hch
  by_cases hc : c = 0
  · simp [hc] at hch
  · simp only [hc, if_false] at hch
    exact to_string_mem c ch hch

lemma extOk_head {e : String} (he : extOk e) {ch : Char} {t : List Char}
    (h : e.data = ch :: t) : ch = '.' := by
  rcases he with h0 | ⟨r, hr⟩
  · rw [h0] at h; cases h
  · rw [hr] at h; exact (List.cons.injEq _ _ _ _ ▸ h).1.symm

lemma sfx_append_inj_le {c c' : Nat} {e e' : String} (he : extOk e)
    (hle : (sfxData c).length ≤ (sfxData c').length)
    (h : sfxData c ++ e.data = sfxData c' ++ e'.data) : c = c' ∧ e = e' := by
  obtain ⟨m, hy, hm⟩ := append_eq_append_of_le h hle
  cases m with
  | nil =>
      simp only [List.append_nil] at hy
      simp only [List.nil_append] at hm
      have he'' : e = e' := String.ext hm
      refine ⟨?_, he''⟩
      unfold sfxData at hy
      by_cases hc : c = 0 <;> by_cases hc' : c' = 0
      · omega
      · simp only [hc, hc', if_true, if_false] at hy
        exact absurd hy (to_string_data_ne_nil c')
      · simp only [hc, hc', if_true, if_false] at hy
        exact absurd hy.symm (to_string_data_ne_nil c)
      · simp only [hc, hc', if_false] at hy
        exact to_string_inj hc hc' (String.ext hy).symm
  | cons ch t =>
      exfalso
      have hch : ch ∈ sfxData c' := by
        rw [hy]; simp
      have hdig : ch ∈ decimal_digits := sfxData_digits ch hch
      have hdot : ch = '.' := extOk_head he hm
      exact decimal_digits_ne_dot ch hdig (by rw [hdot])

lemma sfx_append_inj {c c' : Nat} {e e' : String} (he : extOk e) (he' : extOk e')
    (h : sfxData c ++ e.data = sfxData c' ++ e'.data) : c = c' ∧ e = e' := by
  rcases le_total (sfxData c).length (sfxData c').length with hle | hle
  · exact sfx_append_inj_le he hle h
  · obtain ⟨h1, h2⟩ := sfx_append_inj_le he' hle h.symm
    exact ⟨h1.symm, h2.symm⟩

lemma getShortenedPath_inj {f f' e e' : String} {c c' : Nat}
    (hlen : f.data.length = f'.data.length) (he : extOk e) (he' : extOk e')
    (h : GetShortenedPath f e c = GetShortenedPath f' e' c') :
    f = f' ∧ e = e' ∧ c = c' := by
  have hd := congrArg String.data h
  rw [getShortenedPath_data, getShortenedPath_data] at hd
  have hd' : ("res/".data ++ f.data) ++ (sfxData c ++ e.data)
      = ("res/".data ++ f'.data) ++ (sfxData c' ++ e'.data) := by
    unfold sfxData
    simpa [List.append_assoc] using hd
  obtain ⟨h1, h2⟩ := List.append_inj hd' (by simp [hlen])
  have hf : f = f' := by
    obtain ⟨_, hf'⟩ := List.append_inj h1 rfl
    exact String.ext hf'
  obtain ⟨hc, he''⟩ := sfx_append_inj he he' h2
  exact ⟨hf, he'', hc⟩

lemma splitAtFirstDot_snd (l : List Char) :
    (splitAtFirstDot l).2 = [] ∨ ∃ r, (splitAtFirstDot l).2 = '.' :: r := by
  induction l with
  | nil => left; rfl
  | cons c cs ih =>
      by_cases hc : c = '.'
      · right
        refine ⟨cs, ?_⟩
        simp [splitAtFirstDot, hc]
      · simpa [splitAtFirstDot, hc] using ih

lemma extOk_extension (p : String) : extOk (ExtractResFilePathParts p).extension := by
  unfold ExtractResFilePathParts extOk
  simpa using splitAtFirstDot_snd (splitAtLastSlash p.data).2

lemma extOk_famExt (p : String) : extOk (famExt p) := extOk_extension p

lemma specAssignFrom_append (stdHash : String → Nat) (num_chars : Nat) :
    ∀ (l₁ acc l₂ : List String),
      specAssignFrom stdHash num_chars acc (l₁ ++ l₂)
        = specAssignFrom stdHash num_chars acc l₁
            ++ specAssignFrom stdHash num_chars (acc ++ l₁) l₂ := by
  intro l₁
  induction l₁ with
  | nil => intro acc l₂; simp [specAssignFrom]
  | cons p t ih =>
      intro acc l₂
      cases hp : skipped p
      · simp [specAssignFrom, hp, ih (acc ++ [p]) l₂]
      · simp [specAssignFrom, hp, ih (acc ++ [p]) l₂]

lemma specAssignFrom_length (stdHash : String → Nat) (num_chars : Nat) :
    ∀ (l acc : List String),
      (specAssignFrom stdHash num_chars acc l).length
        = l.countP (fun q => !skipped q) := by
  intro l
  induction l with
  | nil => intro acc; simp [specAssignFrom]
  | cons p t ih =>
      intro acc
      by_cases hp : skipped p
      · simp [specAssignFrom, hp, ih, List.countP_cons]
      · simp [specAssignFrom, hp, ih (acc ++ [p]), List.countP_cons]

lemma famCount_nil (stdHash : String → Nat) (num_chars : Nat) (f e : String) :
    famCount stdHash num_chars [] f e = 0 := rfl

lemma famCount_append_singleton (stdHash : String → Nat) (num_chars : Nat)
    (pre : List String) (q f e : String) :
    famCount stdHash num_chars (pre ++ [q]) f e
      = famCount stdHash num_chars pre f e
          + (if famPred stdHash num_chars f e q then 1 else 0) := by
  unfold famCount
  rw [List.countP_append]
  simp [List.countP_cons]

lemma famCount_le (stdHash : String → Nat) (num_chars : Nat) (pre : List String)
    (f e : String) :
    famCount stdHash num_chars pre f e ≤ (takenOf stdHash num_chars pre).length := by
  rw [takenOf, List.length_map, specAssignFrom_length]
  apply List.countP_mono_left
  intro q _ hq
  unfold famPred at hq
  exact (Bool.and_eq_true _ _ ▸ ((Bool.and_eq_true _ _ ▸ hq).1 : _)).1

lemma mem_takenOf_iff (stdHash : String → Nat) (num_chars : Nat) {f e : String}
    (hf : f.data.length = num_chars) (he : extOk e) :
    ∀ (pre : List String) (c : Nat),
      GetShortenedPath f e c ∈ takenOf stdHash num_chars pre
        ↔ c < famCount stdHash num_chars pre f e := by
  intro pre
  induction pre using List.reverseRecOn with
  | nil => intro c; simp [takenOf, specAssignFrom, famCount_nil]
  | append_singleton pre q ih =>
      intro c
      rw [takenOf, specAssignFrom_append, famCount_append_singleton]
      cases hq : skipped q
      case true =>
        have hpred : famPred stdHash num_chars f e q = false := by
          unfold famPred
          simp [hq]
        simp only [List.nil_append, specAssignFrom, hq, if_true, hpred, Bool.false_eq_true,
          if_false, Nat.add_zero, List.append_nil]
        simpa [takenOf] using ih c
      case false =>
        simp only [List.nil_append, specAssignFrom, hq, Bool.false_eq_true, if_false,
          List.map_append, List.mem_append]
        have hmem_single :
            GetShortenedPath f e c
                ∈ (((q, specCandidate (famAlias stdHash num_chars q) (famExt q)
                      (famCount stdHash num_chars pre (famAlias stdHash num_chars q)
                        (famExt q))) : String × String) :: []).map Prod.snd
              ↔ (famAlias stdHash num_chars q = f ∧ famExt q = e
                  ∧ c = famCount stdHash num_chars pre f e) := by
          simp only [List.map_cons, List.map_nil, List.mem_singleton]
          rw [specCandidate_eq]
          constructor
          · intro hEq
            obtain ⟨h1, h2, h3⟩ :=
              getShortenedPath_inj
                (by rw [hf, famAlias_data_length]) he (extOk_famExt q) hEq
            refine ⟨h1.symm, h2.symm, ?_⟩
            rw [h3, h1, h2]
          · intro ⟨h1, h2, h3⟩
            rw [h1, h2, ← h3]
        rw [hmem_single]
        have hih : GetShortenedPath f e c ∈ takenOf stdHash num_chars pre
            ↔ c < famCount stdHash num_chars pre f e := ih c
        rw [takenOf] at hih
        rw [hih]
        by_cases hmatch : famAlias stdHash num_chars q = f ∧ famExt q = e
        · have hpred : famPred stdHash num_chars f e q = true := by
            unfold famPred
            simp [hq, hmatch.1, hmatch.2]
          simp only [hpred, if_true, hmatch.1, hmatch.2]
          constructor
          · rintro (h | ⟨-, -, h⟩) <;> omega
          · intro h
            rcases Nat.lt_or_ge c (famCount stdHash num_chars pre f e) with h' | h'
            · exact Or.inl h'
            · exact Or.inr ⟨by trivial, by trivial, by omega⟩
        · have hpred : famPred stdHash num_chars f e q = false := by
            unfold famPred
            rcases Decidable.not_and_iff_or_not.mp hmatch with h' | h'
            · simp [h']
            · simp [h']
          simp only [hpred, if_false, Nat.add_zero]
          constructor
          · rintro (h | ⟨h1, h2, -⟩)
            · exact h
            · exact absurd ⟨h1, h2⟩ hmatch
          · exact Or.inl

lemma findShortened_eq (taken : List String) (f e : String) (K : Nat)
    (hmem : ∀ c, GetShortenedPath f e c ∈ taken ↔ c < K) :
    ∀ (fuel start : Nat), start ≤ K → K - start < fuel →
      findShortened taken f e start fuel = GetShortenedPath f e K := by
  intro fuel
  induction fuel with
  | zero => intro start h1 h2; omega
  | succ m ih =>
      intro start h1 h2
      by_cases hs : start = K
      · subst hs
        have hfree : GetShortenedPath f e start ∉ taken := by
          rw [hmem]
          omega
        simp [findShortened, hfree]
      · have hlt : start < K := lt_of_le_of_ne h1 hs
        have htaken : GetShortenedPath f e start ∈ taken := (hmem start).mpr hlt
        simp only [findShortened, htaken, if_true]
        exact ih (start + 1) hlt (by omega)

lemma processRef_stateOf (stdHash : String → Nat) (num_chars : Nat) (pre : List String)
    (p : String) :
    processRef stdHash num_chars
        ⟨takenOf stdHash num_chars pre, specAssignFrom stdHash num_chars [] pre⟩ p
      = ⟨takenOf stdHash num_chars (pre ++ [p]),
         specAssignFrom stdHash num_chars [] (pre ++ [p])⟩ := by
  have hsnoc : specAssignFrom stdHash num_chars [] (pre ++ [p])
      = specAssignFrom stdHash num_chars [] pre
          ++ specAssignFrom stdHash num_chars pre [p] := by
    simpa using specAssignFrom_append stdHash num_chars pre [] [p]
  cases hp : skipped p
  case true =>
    unfold processRef
    have hS : StartsWith (ExtractResFilePathParts p).res_subdir "res/color" = true := hp
    simp only [hS, if_true]
    rw [ShortenState.mk.injEq]
    constructor
    · simp [takenOf, hsnoc, specAssignFrom, hp]
    · simp [hsnoc, specAssignFrom, hp]
  case false =>
    unfold processRef
    have hS : StartsWith (ExtractResFilePathParts p).res_subdir "res/color" = false := hp
    simp only [hS, Bool.false_eq_true, if_false]
    have hmem := mem_takenOf_iff stdHash num_chars
      (famAlias_data_length stdHash num_chars p) (extOk_famExt p) pre
    have hK : famCount stdHash num_chars pre (famAlias stdHash num_chars p) (famExt p)
        ≤ (takenOf stdHash num_chars pre).length :=
      famCount_le stdHash num_chars pre _ _
    have hfind :
        findShortened (takenOf stdHash num_chars pre)
            (ShortenFileName stdHash p num_chars) (ExtractResFilePathParts p).extension 0
            ((takenOf stdHash num_chars pre).length + 1)
          = GetShortenedPath (famAlias stdHash num_chars p) (famExt p)
              (famCount stdHash num_chars pre (famAlias stdHash num_chars p) (famExt p)) := by
      exact findShortened_eq (takenOf stdHash num_chars pre) _ _ _ hmem
        ((takenOf stdHash num_chars pre).length + 1) 0 (Nat.zero_le _) (by omega)
    rw [hfind]
    rw [ShortenState.mk.injEq]
    constructor
    · simp [takenOf, hsnoc, specAssignFrom, hp, specCandidate_eq]
    · simp [hsnoc, specAssignFrom, hp, specCandidate_eq]

lemma foldl_processRef_eq (stdHash : String → Nat) (num_chars : Nat) :
    ∀ (rest pre : List String),
      List.foldl (processRef stdHash num_chars)
          ⟨takenOf stdHash num_chars pre, specAssignFrom stdHash num_chars [] pre⟩ rest
        = ⟨takenOf stdHash num_chars (pre ++ rest),
           specAssignFrom stdHash num_chars [] (pre ++ rest)⟩ := by
  intro rest
  induction rest with
  | nil => intro pre; simp
  | cons p t ih =>
      intro pre
      rw [List.foldl_cons, processRef_stateOf, ih (pre ++ [p])]
      simp

lemma handleShortenWith_eq (stdHash : String → Nat) (num_chars : Nat)
    (file_refs : List String) :
    HandleShortenFilePathsWith stdHash num_chars file_refs
      = ⟨takenOf stdHash num_chars file_refs,
         specAssignFrom stdHash num_chars [] file_refs⟩ := by
  have h := foldl_processRef_eq stdHash num_chars file_refs []
  simpa [HandleShortenFilePathsWith, takenOf, specAssignFrom] using h

lemma takenOf_nodup (stdHash : String → Nat) (num_chars : Nat) :
    ∀ (pre : List String), (takenOf stdHash num_chars pre).Nodup := by
  intro pre
  induction pre using List.reverseRecOn with
  | nil => simp [takenOf, specAssignFrom]
  | append_singleton pre q ih =>
      rw [takenOf, specAssignFrom_append]
      cases hq : skipped q
      case true =>
        simp only [List.nil_append, specAssignFrom, hq, if_true, List.append_nil]
        simpa [takenOf] using ih
      case false =>
        simp only [List.nil_append, specAssignFrom, hq, Bool.false_eq_true, if_false,
          List.map_append]
        refine List.Nodup.append (by simpa [takenOf] using ih) (List.nodup_singleton _) ?_
        intro a ha hb
        simp only [List.map_cons, List.map_nil, List.mem_singleton] at hb
        subst hb
        rw [specCandidate_eq] at ha
        have := (mem_takenOf_iff stdHash num_chars
          (famAlias_data_length stdHash num_chars q) (extOk_famExt q) pre _).mp
          (by simpa [takenOf] using ha)
        omega

lemma specAssignFrom_keys (stdHash : String → Nat) (num_chars : Nat) :
    ∀ (l acc : List String) (k v : String),
      (k, v) ∈ specAssignFrom stdHash num_chars acc l → skipped k = false := by
  intro l
  induction l with
  | nil => intro acc k v h; simp [specAssignFrom] at h
  | cons p t ih =>
      intro acc k v h
      cases hp : skipped p
      case true =>
        rw [specAssignFrom, hp] at h
        simp only [if_true] at h
        exact ih (acc ++ [p]) k v h
      case false =>
        rw [specAssignFrom, hp] at h
        simp only [Bool.false_eq_true, if_false, List.mem_cons] at h
        rcases h with h | h
        · have hk : k = p := congrArg Prod.fst h
          rw [hk]
          exact hp
        · exact ih (acc ++ [p]) k v h

lemma obfuscateResourceName_snd (collapse_key_stringpool : Bool)
    (name_collapse_exemptions : List ResourceName) (type_name : String)
    (entry : ResourceTableEntryView) :
    (ObfuscateResourceName collapse_key_stringpool name_collapse_exemptions type_name entry).2
      = ⟨"", type_name, entry.name⟩ := by
  unfold ObfuscateResourceName
  by_cases h : collapse_key_stringpool = false ∨
      (⟨"", type_name, entry.name⟩ : ResourceName) ∈ name_collapse_exemptions
  · simp [h]
  · by_cases h2 : entry.overlayable_item.isSome = true
    · simp [h, h2]
    · simp [h, h2]

/-- C1: running the whole transform (`Consume`) twice on byte-identical input —
the same resource table contents in the same traversal order, with the same
configuration, within the same execution environment (so with the same ambient
`std::hash` function, modelled by the shared `stdHash` parameter) — yields
byte-identical `shortened_path_map` contents and byte-identical rewritten
file-reference paths in both runs. -/
theorem C1_consume_deterministic (stdHash : String → Nat) (options : OptimizeOptions)
    (table₁ table₂ : ResourceTable) (h : table₁ = table₂) :
    Consume stdHash options table₁ = Consume stdHash options table₂ := by
  rw [h]

theorem C1_consume_deterministic_witness :
    Consume (fun _ => 0) ⟨⟨true, []⟩, true⟩
        ⟨[⟨[⟨"drawable", [⟨"a", some ⟨1⟩, none,
            [⟨Value.file_reference "res/drawable/a.png"⟩]⟩]⟩]⟩]⟩
      = Consume (fun _ => 0) ⟨⟨true, []⟩, true⟩
        ⟨[⟨[⟨"drawable", [⟨"a", some ⟨1⟩, none,
            [⟨Value.file_reference "res/drawable/a.png"⟩]⟩]⟩]⟩]⟩ :=
  C1_consume_deterministic (fun _ => 0) ⟨⟨true, []⟩, true⟩ _ _ rfl

/-- C2: counterevidence for the claim that the collected file references are
iterated in an order keyed by a total order on the original path strings.
`PathComparator` hands back the `int` result of `std::string::compare`
implicitly converted to `bool`, so for the two distinct paths "a" and "b" it
reports each as ordered before the other — it is not asymmetric, hence not the
strict part of any total order — and consequently, in the search-tree model of
`std::set`, the same two-path content iterates in reverse traversal order
rather than in one fixed content-keyed order. -/
theorem C2_pathComparator_not_total_order :
    PathComparator "a" "b" = true ∧ PathComparator "b" "a" = true
      ∧ collectFileRefs ["a", "b"] = ["b", "a"]
      ∧ collectFileRefs ["b", "a"] = ["a", "b"] :=
  ⟨by decide, by decide, by decide, by decide⟩

/-- C3: counterevidence for the claim that the alias hash is a fixed,
explicitly chosen hash rather than the language's ambient string hash.  The
source hashes with `std::hash<android::StringPiece>`, so the alias of a path is
not determined by the path alone: two admissible ambient hash functions give
different aliases for the same path and requested length. -/
theorem C3_alias_depends_on_ambient_hash :
    ShortenFileName (fun _ => 0) "res/drawable/foo.png" 2
      ≠ ShortenFileName (fun _ => 1) "res/drawable/foo.png" 2 := by
  decide

/-- C4: for every run, the shortened-path map equals the spec's closed form:
each processed reference is assigned the fixed prefix, its alias, an optional
decimal collision suffix (omitted when the counter is 0) and its original
extension, where the counter — obtained in the code by retrying until the
candidate is not among previously assigned paths — equals the number of
previously processed references sharing the same alias and extension; so the
first such reference gets the bare alias and later ones the suffixes
1, 2, 3, ... in processing order. -/
theorem C4_candidate_and_collision_suffixes (stdHash : String → Nat) (paths : List String) :
    (HandleShortenFilePaths stdHash paths).shortened_path_map
      = specAssignFrom stdHash (OptimalShortenedLength (collectFileRefs paths).length) []
          (collectFileRefs paths) := by
  unfold HandleShortenFilePaths
  rw [handleShortenWith_eq]

/-- C5: counterexample. An entry carrying an overlayable marker whose resource
name is in the exemption set is classified `Keep_ExemptionList`, not
`Keep_Overlayable` (the exemption check precedes the overlayable check), so the
claim's "regardless of whether the entry's ResourceName is in the exemption
set" fails. -/
theorem C5_overlayable_exempt_counterexample :
    ((⟨"overlay_name", some 1, some ()⟩ : ResourceTableEntryView).overlayable_item.isSome
        = true)
    ∧ (ObfuscateResourceName true [⟨"", "string", "overlay_name"⟩] "string"
        ⟨"overlay_name", some 1, some ()⟩).1 ≠ Result.Keep_Overlayable :=
  ⟨rfl, by decide⟩

/-- C5 (amended): for every entry carrying an overlayable marker, the
classification returns `Keep_Overlayable` when collapsing is enabled and the
entry's name is not in the exemption set (when collapsing is disabled or the
name is exempt it returns `Keep_ExemptionList` instead), and in all cases such
an entry produces no `id_resource_map` record. -/
theorem C5_overlayable_classification (collapse_key_stringpool : Bool)
    (name_collapse_exemptions : List ResourceName) (type_name : String)
    (entry_view : ResourceTableEntryView) (entry : ResourceEntry) :
    (entry_view.overlayable_item.isSome = true → collapse_key_stringpool = true →
        (⟨"", type_name, entry_view.name⟩ : ResourceName) ∉ name_collapse_exemptions →
        (ObfuscateResourceName collapse_key_stringpool name_collapse_exemptions type_name
            entry_view).1 = Result.Keep_Overlayable)
    ∧ (entry_view.overlayable_item.isSome = true →
        (collapse_key_stringpool = false ∨
            (⟨"", type_name, entry_view.name⟩ : ResourceName) ∈ name_collapse_exemptions) →
        (ObfuscateResourceName collapse_key_stringpool name_collapse_exemptions type_name
            entry_view).1 = Result.Keep_ExemptionList)
    ∧ (entry.overlayable_item.isSome = true →
        entryEmission collapse_key_stringpool name_collapse_exemptions type_name entry
          = none) := by
  refine ⟨?_, ?_, ?_⟩
  · intro hov hc hex
    simp [ObfuscateResourceName, hc, hex, hov]
  · intro hov hd
    rcases hd with h | h <;> simp [ObfuscateResourceName, h]
  · intro hov
    unfold entryEmission
    split
    · rfl
    · by_cases hcond : collapse_key_stringpool = false ∨
          (⟨"", type_name, entry.name⟩ : ResourceName) ∈ name_collapse_exemptions
      · simp [ObfuscateResourceName, entryViewOf, hcond]
      · simp [ObfuscateResourceName, entryViewOf, hcond, hov]

theorem C5_overlayable_classification_witness :
    (ObfuscateResourceName true [] "string" ⟨"nm", some 1, some ()⟩).1
        = Result.Keep_Overlayable
    ∧ (ObfuscateResourceName false [] "string" ⟨"nm", some 1, some ()⟩).1
        = Result.Keep_ExemptionList
    ∧ entryEmission true [] "string" ⟨"nm", some ⟨1⟩, some (), []⟩ = none :=
  ⟨(C5_overlayable_classification true [] "string" ⟨"nm", some 1, some ()⟩
      ⟨"nm", some ⟨1⟩, some (), []⟩).1 rfl rfl (by decide),
   (C5_overlayable_classification false [] "string" ⟨"nm", some 1, some ()⟩
      ⟨"nm", some ⟨1⟩, some (), []⟩).2.1 rfl (Or.inl rfl),
   (C5_overlayable_classification true [] "string" ⟨"nm", some 1, some ()⟩
      ⟨"nm", some ⟨1⟩, some (), []⟩).2.2 rfl⟩

/-- C6: the classification outcome is decided in order — collapsing disabled or
exempt name gives `Keep_ExemptionList` (in particular an exempt name gives
`Keep_ExemptionList` even when collapsing is enabled, and such an entry
produces no `id_resource_map` record); otherwise an overlayable marker gives
`Keep_Overlayable`; otherwise `Obfuscated`. -/
theorem C6_classification_cascade (collapse_key_stringpool : Bool)
    (name_collapse_exemptions : List ResourceName) (type_name : String)
    (entry_view : ResourceTableEntryView) (entry : ResourceEntry) :
    ((collapse_key_stringpool = false ∨
        (⟨"", type_name, entry_view.name⟩ : ResourceName) ∈ name_collapse_exemptions) →
      (ObfuscateResourceName collapse_key_stringpool name_collapse_exemptions type_name
          entry_view).1 = Result.Keep_ExemptionList)
    ∧ (collapse_key_stringpool = true →
        (⟨"", type_name, entry_view.name⟩ : ResourceName) ∉ name_collapse_exemptions →
        entry_view.overlayable_item.isSome = true →
        (ObfuscateResourceName collapse_key_stringpool name_collapse_exemptions type_name
            entry_view).1 = Result.Keep_Overlayable)
    ∧ (collapse_key_stringpool = true →
        (⟨"", type_name, entry_view.name⟩ : ResourceName) ∉ name_collapse_exemptions →
        entry_view.overlayable_item = none →
        (ObfuscateResourceName collapse_key_stringpool name_collapse_exemptions type_name
            entry_view).1 = Result.Obfuscated)
    ∧ ((⟨"", type_name, entry.name⟩ : ResourceName) ∈ name_collapse_exemptions →
        entryEmission collapse_key_stringpool name_collapse_exemptions type_name entry
          = none) := by
  refine ⟨?_, ?_, ?_, ?_⟩
  · intro hd
    rcases hd with h | h <;> simp [ObfuscateResourceName, h]
  · intro hc hex hov
    simp [ObfuscateResourceName, hc, hex, hov]
  · intro hc hex hov
    simp [ObfuscateResourceName, hc, hex, hov]
  · intro hmem
    unfold entryEmission
    split
    · rfl
    · simp [ObfuscateResourceName, entryViewOf, hmem]

theorem C6_classification_cascade_witness :
    (ObfuscateResourceName true [⟨"", "string", "nm"⟩] "string" ⟨"nm", some 1, none⟩).1
        = Result.Keep_ExemptionList
    ∧ (ObfuscateResourceName true [] "string" ⟨"nm", some 1, some ()⟩).1
        = Result.Keep_Overlayable
    ∧ (ObfuscateResourceName true [] "string" ⟨"nm", some 1, none⟩).1
        = Result.Obfuscated
    ∧ entryEmission true [⟨"", "string", "nm"⟩] "string" ⟨"nm", some ⟨1⟩, none, []⟩
        = none :=
  ⟨(C6_classification_cascade true [⟨"", "string", "nm"⟩] "string" ⟨"nm", some 1, none⟩
      ⟨"nm", some ⟨1⟩, none, []⟩).1 (Or.inr (by decide)),
   (C6_classification_cascade true [] "string" ⟨"nm", some 1, some ()⟩
      ⟨"nm", some ⟨1⟩, none, []⟩).2.1 rfl (by decide) rfl,
   (C6_classification_cascade true [] "string" ⟨"nm", some 1, none⟩
      ⟨"nm", some ⟨1⟩, none, []⟩).2.2.1 rfl (by decide) rfl,
   (C6_classification_cascade true [⟨"", "string", "nm"⟩] "string" ⟨"nm", some 1, none⟩
      ⟨"nm", some ⟨1⟩, none, []⟩).2.2.2 (by decide)⟩

/-- C7: no file-reference path whose resource subdirectory starts with
"res/color" (the color-state-list convention) is ever a key of
`shortened_path_map`; such references are skipped before any rewriting. -/
theorem C7_no_color_keys (stdHash : String → Nat) (paths : List String) (k v : String)
    (h : (k, v) ∈ (HandleShortenFilePaths stdHash paths).shortened_path_map) :
    StartsWith (ExtractResFilePathParts k).res_subdir "res/color" = false := by
  unfold HandleShortenFilePaths at h
  rw [handleShortenWith_eq] at h
  have hk := specAssignFrom_keys stdHash
    (OptimalShortenedLength (collectFileRefs paths).length) (collectFileRefs paths) [] k v h
  simpa [skipped] using hk

theorem C7_no_color_keys_witness :
    ("res/drawable/a.png", "res/AA.png")
        ∈ (HandleShortenFilePaths (fun _ => 0) ["res/drawable/a.png"]).shortened_path_map
      ∧ StartsWith (ExtractResFilePathParts "res/drawable/a.png").res_subdir "res/color"
        = false :=
  ⟨by decide,
   C7_no_color_keys (fun _ => 0) ["res/drawable/a.png"] "res/drawable/a.png" "res/AA.png"
     (by decide)⟩

/-- C8: with N the number of distinct collected file references, the alias
length used for the whole run is 2 when N ≤ 4000 and 3 when N > 4000: the run
equals the parameterised run at that length, and every alias computed with the
chosen length has exactly that many characters. -/
theorem C8_alias_length_threshold (stdHash : String → Nat) (paths : List String) :
    ((collectFileRefs paths).length ≤ 4000 →
        HandleShortenFilePaths stdHash paths
            = HandleShortenFilePathsWith stdHash 2 (collectFileRefs paths)
          ∧ ∀ p : String,
              (ShortenFileName stdHash p
                  (OptimalShortenedLength (collectFileRefs paths).length)).length = 2)
    ∧ (4000 < (collectFileRefs paths).length →
        HandleShortenFilePaths stdHash paths
            = HandleShortenFilePathsWith stdHash 3 (collectFileRefs paths)
          ∧ ∀ p : String,
              (ShortenFileName stdHash p
                  (OptimalShortenedLength (collectFileRefs paths).length)).length = 3) := by
  constructor
  · intro hN
    have h2 : OptimalShortenedLength (collectFileRefs paths).length = 2 := by
      unfold OptimalShortenedLength
      rw [if_neg (by omega)]
    refine ⟨?_, fun p => ?_⟩
    · unfold HandleShortenFilePaths
      simp only [h2]
    · rw [h2]
      exact shortenFileName_data_length stdHash p 2
  · intro hN
    have h3 : OptimalShortenedLength (collectFileRefs paths).length = 3 := by
      unfold OptimalShortenedLength
      rw [if_pos (by omega)]
    refine ⟨?_, fun p => ?_⟩
    · unfold HandleShortenFilePaths
      simp only [h3]
    · rw [h3]
      exact shortenFileName_data_length stdHash p 3

theorem C8_alias_length_threshold_witness :
    HandleShortenFilePaths (fun _ => 0) ["res/drawable/a.png"]
        = HandleShortenFilePathsWith (fun _ => 0) 2 (collectFileRefs ["res/drawable/a.png"])
      ∧ (ShortenFileName (fun _ => 0) "x"
          (OptimalShortenedLength (collectFileRefs ["res/drawable/a.png"]).length)).length
        = 2 :=
  ⟨((C8_alias_length_threshold (fun _ => 0) ["res/drawable/a.png"]).1 (by decide)).1,
   ((C8_alias_length_threshold (fun _ => 0) ["res/drawable/a.png"]).1 (by decide)).2 "x"⟩

/-- C9: the name-collapse driver skips every entry lacking a resolved numeric
id or having an empty name, and emits an `id_resource_map` record — the
resolved 32-bit id mapped to the original entry name — exactly for entries
classified `Obfuscated`. -/
theorem C9_collapse_driver_behavior (collapse_key_string_pool : Bool)
    (name_collapse_exemptions : List ResourceName) (type_name : String)
    (entry : ResourceEntry) :
    (entry.id = none →
        entryEmission collapse_key_string_pool name_collapse_exemptions type_name entry
          = none)
    ∧ (entry.name = "" →
        entryEmission collapse_key_string_pool name_collapse_exemptions type_name entry
          = none)
    ∧ (∀ i n,
        entryEmission collapse_key_string_pool name_collapse_exemptions type_name entry
            = some (i, n)
          ↔ (∃ rid, entry.id = some rid ∧ i = rid.id) ∧ entry.name ≠ "" ∧ n = entry.name
              ∧ (ObfuscateResourceName collapse_key_string_pool name_collapse_exemptions
                  type_name (entryViewOf entry)).1 = Result.Obfuscated) := by
  refine ⟨?_, ?_, ?_⟩
  · intro h
    simp [entryEmission, h]
  · intro h
    simp [entryEmission, h]
  · intro i n
    unfold entryEmission
    by_cases hskip : entry.id.isNone = true ∨ entry.name = ""
    · rw [if_pos hskip]
      constructor
      · intro h
        cases h
      · rintro ⟨⟨rid, hrid, -⟩, hname, -, -⟩
        rcases hskip with h | h
        · rw [hrid] at h
          cases h
        · exact absurd h hname
    · rw [if_neg hskip]
      push_neg at hskip
      obtain ⟨hid, hname⟩ := hskip
      obtain ⟨rid, hrid⟩ : ∃ rid, entry.id = some rid := by
        cases hcase : entry.id with
        | none => rw [hcase] at hid; exact absurd rfl hid
        | some r => exact ⟨r, rfl⟩
      have hsnd := obfuscateResourceName_snd collapse_key_string_pool
        name_collapse_exemptions type_name (entryViewOf entry)
      cases hobf : (ObfuscateResourceName collapse_key_string_pool name_collapse_exemptions
          type_name (entryViewOf entry)).1 with
      | Obfuscated =>
          have hfull : ObfuscateResourceName collapse_key_string_pool name_collapse_exemptions
              type_name (entryViewOf entry)
                = (Result.Obfuscated, ⟨"", type_name, (entryViewOf entry).name⟩) := by
            rw [Prod.ext_iff]
            exact ⟨hobf, hsnd⟩
          rw [hfull]
          constructor
          · intro h
            simp only [hrid, Option.getD_some, Option.some.injEq, Prod.mk.injEq,
              entryViewOf] at h
            exact ⟨⟨rid, hrid, h.1.symm⟩, hname, h.2.symm, rfl⟩
          · rintro ⟨⟨rid', hrid', hi⟩, -, hn, -⟩
            rw [hrid] at hrid'
            injection hrid' with hr
            subst hr
            subst hi
            subst hn
            simp [hrid, entryViewOf]
      | Keep_ExemptionList =>
          have hfull : ObfuscateResourceName collapse_key_string_pool name_collapse_exemptions
              type_name (entryViewOf entry)
                = (Result.Keep_ExemptionList, ⟨"", type_name, (entryViewOf entry).name⟩) := by
            rw [Prod.ext_iff]
            exact ⟨hobf, hsnd⟩
          rw [hfull]
          constructor
          · intro h
            simp at h
          · rintro ⟨-, -, -, h⟩
            exact absurd h (by decide)
      | Keep_Overlayable =>
          have hfull : ObfuscateResourceName collapse_key_string_pool name_collapse_exemptions
              type_name (entryViewOf entry)
                = (Result.Keep_Overlayable, ⟨"", type_name, (entryViewOf entry).name⟩) := by
            rw [Prod.ext_iff]
            exact ⟨hobf, hsnd⟩
          rw [hfull]
          constructor
          · intro h
            simp at h
          · rintro ⟨-, -, -, h⟩
            exact absurd h (by decide)

theorem C9_collapse_driver_behavior_witness :
    entryEmission true [] "string" ⟨"nm", none, none, []⟩ = none
    ∧ entryEmission true [] "string" ⟨"", some ⟨5⟩, none, []⟩ = none
    ∧ entryEmission true [] "string" ⟨"nm", some ⟨5⟩, none, []⟩ = some (5, "nm") :=
  ⟨(C9_collapse_driver_behavior true [] "string" ⟨"nm", none, none, []⟩).1 rfl,
   (C9_collapse_driver_behavior true [] "string" ⟨"", some ⟨5⟩, none, []⟩).2.1 rfl,
   ((C9_collapse_driver_behavior true [] "string" ⟨"nm", some ⟨5⟩, none, []⟩).2.2 5 "nm").mpr
     ⟨⟨⟨5⟩, rfl, rfl⟩, by decide, rfl, by decide⟩⟩

/-- C10: within a single run, the shortened paths assigned by path shortening
are pairwise distinct — the values stored in `shortened_path_map` contain no
duplicate. -/
theorem C10_assigned_paths_nodup (stdHash : String → Nat) (paths : List String) :
    ((HandleShortenFilePaths stdHash paths).shortened_path_map.map Prod.snd).Nodup := by
  unfold HandleShortenFilePaths
  rw [handleShortenWith_eq]
  exact takenOf_nodup stdHash (OptimalShortenedLength (collectFileRefs paths).length)
    (collectFileRefs paths)

end aapt
